import Mathlib

set_option maxHeartbeats 2000000
set_option maxRecDepth 100000

/-!
Verification development for the BOLT_IRR cash-flow / XIRR core.

The embedding follows `src/utils/xirr.ts` and the window builder
`buildPeriodCashFlows` in `src/App.tsx`.  JavaScript numbers are modelled as
exact rationals; calendar dates (date-only, UTC components) are modelled as
integer day numbers, so the millisecond arithmetic of `dateDiffInDays` is the
exact integer day difference.  The one primitive that is not rational-valued,
`Math.pow`, is passed explicitly as a function parameter `pw : Rat → Rat → Rat`
to every definition that uses it; all structural theorems below hold for every
choice of `pw`.  For concrete evaluations we instantiate `pw` with
`mathPowInt`, which agrees with the real power function whenever the exponent
is an integer: every concrete fact below either does not depend on the power
primitive at all (guards, flags, day counts, aggregate fields), or is
evaluated on inputs (`cfA`, `fl7`) whose day spans of 0 and 1461 days make
every exponent the solvers touch an integer (0, 1, 4 or 5), so the witnessed
behaviour is the behaviour of the original program.  The `toFixed`
percent-string fields of the source are pure display formatting of the
numeric fields and are omitted from the record types.
-/

namespace BoltIRR

/-- A dated cash flow: `date` is a calendar day number, `amount` a signed
rational amount, `description` a free-text label (source: interface CashFlow). -/
structure CashFlow where
  date : Int
  amount : Rat
  description : String
deriving DecidableEq

/-- Result of one solver run (source: interface MethodResult; the
`ratePercent` display string is omitted). -/
structure MethodResult where
  rate : Rat
  iterations : Nat
  method : String
  converged : Bool
  finalNPV : Rat
deriving DecidableEq

/-- Reconciled result of both solvers (source: interface XIRRResult; the
three percent display strings are omitted). -/
structure XIRRResult where
  xirr : Rat
  simpleReturn : Rat
  annualized : Bool
  totalDays : Nat
  netCashFlow : Rat
  firstCashFlow : Rat
  lastCashFlow : Rat
  totalInflows : Rat
  totalOutflows : Rat
  newtonRaphson : MethodResult
  brent : MethodResult
  hasDifference : Bool
  difference : Rat
deriving DecidableEq

/-- Absolute number of calendar days between two day numbers (source:
`dateDiffInDays`, which divides a UTC-millisecond difference of date-only
values by 86400000 and takes `Math.abs`; on date-only values this is the exact
integer day difference). -/
def dateDiffInDays (d1 d2 : Int) : Nat := (d2 - d1).natAbs

/-- Net present value at `rate` (source: `calculateNPV`): every flow is
discounted by `pw (1 + rate) (days / 365.25)` where `pw` models `Math.pow`. -/
def calculateNPV (pw : Rat → Rat → Rat) (rate : Rat) (cashFlows : List CashFlow)
    (startDate : Int) : Rat :=
  cashFlows.foldl (fun npv flow =>
    npv + flow.amount /
      pw (1 + rate) ((dateDiffInDays startDate flow.date : Rat) / (365.25 : Rat))) 0

/-- Analytic derivative of the NPV with respect to the rate (source:
`calculateDerivativeNPV`). -/
def calculateDerivativeNPV (pw : Rat → Rat → Rat) (rate : Rat) (cashFlows : List CashFlow)
    (startDate : Int) : Rat :=
  cashFlows.foldl (fun dnpv flow =>
    let years : Rat := (dateDiffInDays startDate flow.date : Rat) / (365.25 : Rat)
    dnpv + (-years * flow.amount) / pw (1 + rate) (years + 1)) 0

/-- The Newton-Raphson `for` loop of `calculateWithNewtonRaphson`.  `fuel` is
the remaining iteration budget (100 on entry), `k` the value of the JS loop
counter `iterations` on entry (0 on entry).  Returns the final rate, the value
of the loop counter at loop exit, and the `converged` flag.  On a `break` the
counter keeps its current value `k`; when the budget is exhausted the JS
counter has been incremented to 100, which is what the fuel-0 case returns
because the recursive call passes `k + 1`. -/
def newtonGo (pw : Rat → Rat → Rat) (cashFlows : List CashFlow) (startDate : Int) :
    Nat → Rat → Nat → Rat × Nat × Bool
  | 0, rate, k => (rate, k, false)
  | fuel + 1, rate, k =>
    let npv := calculateNPV pw rate cashFlows startDate
    if |npv| < (0.000001 : Rat) then (rate, k, true)
    else
      let dnpv := calculateDerivativeNPV pw rate cashFlows startDate
      if dnpv = 0 then (rate, k, false)
      else
        let newRate := rate - npv / dnpv
        newtonGo pw cashFlows startDate fuel
          (if newRate ≤ (-0.99 : Rat) then (-0.99 : Rat) else newRate) (k + 1)

/-- Every rate at which the Newton-Raphson loop evaluates the NPV or its
derivative, in order, by the same recursion as `newtonGo`; the final element
is also the rate at which the post-loop residual `finalNPV` is evaluated. -/
def newtonTrace (pw : Rat → Rat → Rat) (cashFlows : List CashFlow) (startDate : Int) :
    Nat → Rat → List Rat
  | 0, rate => [rate]
  | fuel + 1, rate =>
    let npv := calculateNPV pw rate cashFlows startDate
    if |npv| < (0.000001 : Rat) then [rate]
    else
      let dnpv := calculateDerivativeNPV pw rate cashFlows startDate
      if dnpv = 0 then [rate]
      else
        let newRate := rate - npv / dnpv
        rate :: newtonTrace pw cashFlows startDate fuel
          (if newRate ≤ (-0.99 : Rat) then (-0.99 : Rat) else newRate)

/-- Newton-Raphson solver (source: `calculateWithNewtonRaphson`); the source's
default initial guess is 0.1. -/
def calculateWithNewtonRaphson (pw : Rat → Rat → Rat) (cashFlows : List CashFlow)
    (startDate : Int) (initialGuess : Rat) : MethodResult :=
  let out := newtonGo pw cashFlows startDate 100 initialGuess 0
  { rate := out.1
    iterations := out.2.1 + 1
    method := "Newton-Raphson"
    converged := out.2.2
    finalNPV := calculateNPV pw out.1 cashFlows startDate }

/-- Mutable-variable state of the Brent loop in `calculateWithBrent`. -/
structure BrentState where
  a : Rat
  b : Rat
  c : Rat
  d : Rat
  e : Rat
  fa : Rat
  fb : Rat
  fc : Rat
deriving DecidableEq

/-- The `for` loop of `calculateWithBrent`, one constructor case per loop
entry; `fuel`/`k` play the same roles as in `newtonGo`. -/
def brentLoop (pw : Rat → Rat → Rat) (cashFlows : List CashFlow) (startDate : Int) :
    Nat → Nat → BrentState → Rat × Nat × Bool
  | 0, k, st => (st.b, k, false)
  | fuel + 1, k, st =>
    let st1 : BrentState :=
      if |st.fc| < |st.fb| then
        { st with a := st.b, b := st.c, c := st.b, fa := st.fb, fb := st.fc, fc := st.fb }
      else st
    let tol : Rat := 2 * (0.000001 : Rat) * |st1.b| + (0.000001 : Rat)
    let m : Rat := (0.5 : Rat) * (st1.c - st1.b)
    if |m| ≤ tol ∨ |st1.fb| < (0.000001 : Rat) then (st1.b, k, true)
    else
      let de : Rat × Rat :=
        if |st1.e| < tol ∨ |st1.fa| ≤ |st1.fb| then (m, m)
        else
          let s := st1.fb / st1.fa
          let pq : Rat × Rat :=
            if st1.a = st1.c then (2 * m * s, 1 - s)
            else
              let q0 := st1.fa / st1.fc
              let r0 := st1.fb / st1.fc
              (s * (2 * m * q0 * (q0 - r0) - (st1.b - st1.a) * (r0 - 1)),
                (q0 - 1) * (r0 - 1) * (s - 1))
          let p2 : Rat := if pq.1 > 0 then pq.1 else -pq.1
          let q2 : Rat := if pq.1 > 0 then -pq.2 else pq.2
          let s2 : Rat := 2 * p2
          if s2 < 3 * m * q2 - |tol * q2| ∧ s2 < |st1.e * q2| then (p2 / q2, st1.d)
          else (m, m)
      let a3 := st1.b
      let fa3 := st1.fb
      let b3 : Rat :=
        if |de.1| > tol then st1.b + de.1
        else if m ≥ 0 then st1.b + tol else st1.b - tol
      let fb3 := calculateNPV pw b3 cashFlows startDate
      let st2 : BrentState :=
        if fb3 * st1.fc > 0 then
          { a := a3, b := b3, c := a3, d := b3 - a3, e := b3 - a3, fa := fa3, fb := fb3, fc := fa3 }
        else
          { a := a3, b := b3, c := st1.c, d := de.1, e := de.2, fa := fa3, fb := fb3, fc := st1.fc }
      brentLoop pw cashFlows startDate fuel (k + 1) st2

/-- Packs a Brent loop outcome into a MethodResult exactly as the tail of
`calculateWithBrent` does (residual NPV re-evaluated at the final `b`). -/
def mkBrentResult (pw : Rat → Rat → Rat) (cashFlows : List CashFlow) (startDate : Int)
    (out : Rat × Nat × Bool) : MethodResult :=
  { rate := out.1
    iterations := out.2.1 + 1
    method := "Brent"
    converged := out.2.2
    finalNPV := calculateNPV pw out.1 cashFlows startDate }

/-- Bracketing solver (source: `calculateWithBrent`); the source's default
bracket is `[-0.99, 10.0]`.  If the endpoint NPVs satisfy `fa * fb >= 0` the
bracket is replaced once by `[-0.5, 5.0]` with both NPVs re-evaluated (the
variables `c`, `d`, `e`, `fc` keep their values from the original bracket),
and the loop is entered unconditionally. -/
def calculateWithBrent (pw : Rat → Rat → Rat) (cashFlows : List CashFlow)
    (startDate : Int) (lowerBound upperBound : Rat) : MethodResult :=
  let a := lowerBound
  let b := upperBound
  let fa := calculateNPV pw a cashFlows startDate
  let fb := calculateNPV pw b cashFlows startDate
  let st0 : BrentState :=
    { a := a, b := b, c := a, d := b - a, e := b - a, fa := fa, fb := fb, fc := fa }
  let st1 : BrentState :=
    if fa * fb ≥ 0 then
      { st0 with
        a := (-0.5 : Rat)
        b := (5.0 : Rat)
        fa := calculateNPV pw (-0.5 : Rat) cashFlows startDate
        fb := calculateNPV pw (5.0 : Rat) cashFlows startDate }
    else st0
  mkBrentResult pw cashFlows startDate (brentLoop pw cashFlows startDate 100 0 st1)

/-- Comparator relation of the reconciler's sort: ascending by date (source:
`sort((a, b) => a.date.getTime() - b.date.getTime())`). -/
def byDate (f g : CashFlow) : Prop := f.date ≤ g.date

instance : DecidableRel byDate := fun f g => inferInstanceAs (Decidable (f.date ≤ g.date))

instance : IsTotal CashFlow byDate := ⟨fun a b => Int.le_total a.date b.date⟩

instance : IsTrans CashFlow byDate := ⟨fun _ _ _ h1 h2 => le_trans h1 h2⟩

/-- Strict version of `byDate`, used to reason about sequences with pairwise
distinct dates. -/
def byDateLT (f g : CashFlow) : Prop := f.date < g.date

instance : IsAntisymm CashFlow byDateLT :=
  ⟨fun _ _ h1 h2 => absurd h1 (lt_asymm h2)⟩

/-- Chronological sort of a flow list.  JavaScript `Array.prototype.sort` is
stable, and insertion sort with a non-strict comparator is the stable sort. -/
def sortFlows (l : List CashFlow) : List CashFlow := List.insertionSort byDate l

/-- First element of a flow list, total (source: `sortedFlows[0]`, only
reached on lists of length at least 2). -/
def headD : List CashFlow → CashFlow
  | [] => ⟨0, 0, ""⟩
  | f :: _ => f

/-- Last element of a flow list, total (source:
`sortedFlows[sortedFlows.length - 1]`, only reached on lists of length at
least 2). -/
def lastD : List CashFlow → CashFlow
  | [] => ⟨0, 0, ""⟩
  | [f] => f
  | _ :: g :: t => lastD (g :: t)

/-- Body of `calculateXIRR` after the two early returns, computing every field
of the result from the sorted flow list (source: lines 224-272 of xirr.ts). -/
def reconcileSorted (pw : Rat → Rat → Rat) (sortedFlows : List CashFlow) : XIRRResult :=
  let startDate := (headD sortedFlows).date
  let endDate := (lastD sortedFlows).date
  let totalDays := dateDiffInDays startDate endDate
  let netCashFlow := sortedFlows.foldl (fun s f => s + f.amount) 0
  let totalOutflows :=
    (sortedFlows.filter (fun f => decide (f.amount < 0))).foldl (fun s f => s + |f.amount|) 0
  let totalInflows :=
    (sortedFlows.filter (fun f => decide (0 < f.amount))).foldl (fun s f => s + f.amount) 0
  let newtonResult := calculateWithNewtonRaphson pw sortedFlows startDate (0.1 : Rat)
  let brentResult := calculateWithBrent pw sortedFlows startDate (-0.99 : Rat) (10.0 : Rat)
  let bestResult :=
    if |newtonResult.finalNPV| < |brentResult.finalNPV| then newtonResult else brentResult
  let rate := bestResult.rate
  let difference := |newtonResult.rate - brentResult.rate|
  { xirr := rate
    simpleReturn := pw (1 + rate) ((totalDays : Rat) / (365.25 : Rat)) - 1
    annualized := decide (365 < totalDays)
    totalDays := totalDays
    netCashFlow := netCashFlow
    firstCashFlow := (headD sortedFlows).amount
    lastCashFlow := (lastD sortedFlows).amount
    totalInflows := totalInflows
    totalOutflows := totalOutflows
    newtonRaphson := newtonResult
    brent := brentResult
    hasDifference := decide ((0.00001 : Rat) < difference)
    difference := difference }

/-- The reconciler (source: `calculateXIRR`): fewer than two flows gives no
result; then the flows are sorted; if the last sorted flow is negative and the
net sum is negative there is no result; otherwise both solvers run and the
reconciled record is returned. -/
def calculateXIRR (pw : Rat → Rat → Rat) (cashFlows : List CashFlow) : Option XIRRResult :=
  if cashFlows.length < 2 then none
  else
    if (lastD (sortFlows cashFlows)).amount < 0 ∧
        (sortFlows cashFlows).foldl (fun s f => s + f.amount) 0 < 0 then none
    else some (reconcileSorted pw (sortFlows cashFlows))

/-- Window builder (source: `buildPeriodCashFlows` in App.tsx).  Dates are
required (the source returns early on empty date strings, which cannot be
represented by a day number); the start and end market values are optional
(`none` models the empty input string).  Emits `-|startValue|` at the start
date, the supplied intermediate flows dated strictly between the bounds, and
`endValue` (sign preserved) at the end date, sorted chronologically. -/
def buildPeriodCashFlows (periodFlows : List CashFlow) (startDate endDate : Int)
    (startValue endValue : Option Rat) : List CashFlow :=
  match startValue, endValue with
  | some sv, some ev =>
    let startFlow : CashFlow := ⟨startDate, -|sv|, "Period Start Value"⟩
    let intermediateFlows :=
      periodFlows.filter (fun f => decide (startDate < f.date ∧ f.date < endDate))
    let endFlow : CashFlow := ⟨endDate, ev, "Period End Value"⟩
    sortFlows (startFlow :: (intermediateFlows ++ [endFlow]))
  | _, _ => []

/-- Concrete instantiation of the power primitive for closed evaluations:
exact integer powers, and 0 on non-integer exponents.  It agrees with the real
`Math.pow` whenever the exponent is an integer; every concrete solver
evaluation below happens on flow lists whose exponents are integers, and the
other concrete facts (guards, flags, day counts) do not depend on the power
primitive. -/
def mathPowInt (b e : Rat) : Rat := if e.den = 1 then b ^ e.num else 0

/-! ### Basic lemmas about the sorting and aggregation helpers -/

theorem sortFlows_perm (l : List CashFlow) : List.Perm (sortFlows l) l :=
  List.perm_insertionSort byDate l

theorem sortFlows_sorted (l : List CashFlow) : List.Sorted byDate (sortFlows l) :=
  List.sorted_insertionSort byDate l

theorem headD_mem : ∀ {l : List CashFlow}, l ≠ [] → headD l ∈ l
  | [], h => absurd rfl h
  | _ :: _, _ => List.mem_cons_self _ _

theorem lastD_mem : ∀ {l : List CashFlow}, l ≠ [] → lastD l ∈ l
  | [], h => absurd rfl h
  | [_], _ => List.mem_cons_self _ _
  | _ :: g :: t, _ => List.mem_cons_of_mem _ (lastD_mem (l := g :: t) (by simp))

theorem sorted_headD_le {l : List CashFlow} (hs : List.Sorted byDate l) :
    ∀ f ∈ l, (headD l).date ≤ f.date := by
  cases l with
  | nil => intro f hf; cases hf
  | cons a t =>
    intro f hf
    rcases List.mem_cons.mp hf with rfl | hf
    · exact le_refl _
    · exact List.rel_of_sorted_cons hs f hf

theorem sorted_le_lastD {l : List CashFlow} (hs : List.Sorted byDate l) :
    ∀ f ∈ l, f.date ≤ (lastD l).date := by
  induction l with
  | nil => intro f hf; cases hf
  | cons a t ih =>
    intro f hf
    cases t with
    | nil =>
      rcases List.mem_cons.mp hf with rfl | hf
      · exact le_refl _
      · cases hf
    | cons b t2 =>
      have hlast : lastD (a :: b :: t2) = lastD (b :: t2) := rfl
      rw [hlast]
      rcases List.mem_cons.mp hf with rfl | hf
      · exact List.rel_of_sorted_cons hs _ (lastD_mem (by simp))
      · exact ih hs.of_cons f hf

theorem foldl_add_amounts (l : List CashFlow) (acc : Rat) :
    l.foldl (fun s f => s + f.amount) acc = acc + (l.map fun f => f.amount).sum := by
  induction l generalizing acc with
  | nil => simp
  | cons a t ih => simp [ih, add_assoc]

theorem sortFlows_amount_sum (l : List CashFlow) :
    ((sortFlows l).map fun f => f.amount).sum = (l.map fun f => f.amount).sum :=
  ((sortFlows_perm l).map _).sum_eq

/-- Inversion of the reconciler: a produced result comes from `reconcileSorted`
on the sorted flows, and the input had at least two flows. -/
theorem calculateXIRR_some_inv {pw : Rat → Rat → Rat} {l : List CashFlow} {r : XIRRResult}
    (h : calculateXIRR pw l = some r) :
    2 ≤ l.length ∧ r = reconcileSorted pw (sortFlows l) := by
  unfold calculateXIRR at h
  split_ifs at h with h1 h2
  all_goals first
    | exact Option.noConfusion h
    | exact ⟨by omega, (Option.some.inj h).symm⟩

theorem reconcile_newton (pw : Rat → Rat → Rat) (s : List CashFlow) :
    (reconcileSorted pw s).newtonRaphson =
      calculateWithNewtonRaphson pw s (headD s).date (0.1 : Rat) := rfl

theorem reconcile_brent (pw : Rat → Rat → Rat) (s : List CashFlow) :
    (reconcileSorted pw s).brent =
      calculateWithBrent pw s (headD s).date (-0.99 : Rat) (10.0 : Rat) := rfl

/-! ### Concrete data used for witnesses and counterexamples.

The flows of `cfA` and `cfB` all fall on the same day (year fraction 0), and
`fl7` spans 1461 days = 4 × 365.25, an exact integer number of years, so on
these inputs `mathPowInt` agrees with the real power function at every point
the solvers evaluate.  The facts witnessed on `cfRej`, `fl365`, `cfD1` and
`cfD2` (guard, day span, annualization flag, order independence) do not
depend on the power primitive. -/

def cfA : List CashFlow := [⟨0, 5, ""⟩, ⟨0, -3, ""⟩]

def cfB : List CashFlow := [⟨0, -3, ""⟩, ⟨0, 5, ""⟩]

def cfRej : List CashFlow := [⟨0, -100000, ""⟩, ⟨1, -50000, ""⟩]

def fl365 : List CashFlow := [⟨0, -100000, ""⟩, ⟨365, 115000, ""⟩]

def fl7 : List CashFlow := [⟨0, -200000000, ""⟩, ⟨1461, 1, ""⟩]

/-- The reconciled result for `cfA` (its guard passes: the net sum is 2). -/
def rA : XIRRResult := reconcileSorted mathPowInt (sortFlows cfA)

/-! ### Claim C2: selection by smaller absolute residual -/

/-- C2: for every accepted sequence, the chosen rate equals the rate of
whichever of the two MethodResults has the strictly smaller absolute final
residual (ties are not covered by the claim; the source resolves them in
favour of the bracketing result). -/
theorem claim_C2_selection (pw : Rat → Rat → Rat) (flows : List CashFlow) (r : XIRRResult)
    (h : calculateXIRR pw flows = some r) :
    (|r.newtonRaphson.finalNPV| < |r.brent.finalNPV| → r.xirr = r.newtonRaphson.rate) ∧
    (|r.brent.finalNPV| < |r.newtonRaphson.finalNPV| → r.xirr = r.brent.rate) := by
  obtain ⟨-, rfl⟩ := calculateXIRR_some_inv h
  have hx : (reconcileSorted pw (sortFlows flows)).xirr =
      (if |(reconcileSorted pw (sortFlows flows)).newtonRaphson.finalNPV| <
          |(reconcileSorted pw (sortFlows flows)).brent.finalNPV|
       then (reconcileSorted pw (sortFlows flows)).newtonRaphson
       else (reconcileSorted pw (sortFlows flows)).brent).rate := rfl
  constructor
  · intro hlt
    rw [hx, if_pos hlt]
  · intro hlt
    rw [hx, if_neg (not_lt.mpr (le_of_lt hlt))]

/-- C2 witness: the hypothesis is satisfiable at the concrete accepted
sequence `cfA` and the theorem applies there. -/
theorem claim_C2_witness :
    calculateXIRR mathPowInt cfA = some rA ∧
    ((|rA.newtonRaphson.finalNPV| < |rA.brent.finalNPV| → rA.xirr = rA.newtonRaphson.rate) ∧
     (|rA.brent.finalNPV| < |rA.newtonRaphson.finalNPV| → rA.xirr = rA.brent.rate)) :=
  ⟨by with_unfolding_all rfl,
   claim_C2_selection mathPowInt cfA rA (by with_unfolding_all rfl)⟩

/-! ### Claim C5: disagreement flag and magnitude -/

/-- C5: for every accepted sequence, the disagreement flag is set exactly when
the absolute rate difference of the two solvers exceeds 1e-5, and the reported
magnitude is that absolute difference. -/
theorem claim_C5_disagreement (pw : Rat → Rat → Rat) (flows : List CashFlow) (r : XIRRResult)
    (h : calculateXIRR pw flows = some r) :
    (r.hasDifference = true ↔ (0.00001 : Rat) < |r.newtonRaphson.rate - r.brent.rate|) ∧
    r.difference = |r.newtonRaphson.rate - r.brent.rate| := by
  obtain ⟨-, rfl⟩ := calculateXIRR_some_inv h
  constructor
  · have hd : (reconcileSorted pw (sortFlows flows)).hasDifference =
        decide ((0.00001 : Rat) <
          |(reconcileSorted pw (sortFlows flows)).newtonRaphson.rate -
            (reconcileSorted pw (sortFlows flows)).brent.rate|) := rfl
    rw [hd, decide_eq_true_iff]
  · rfl

/-- C5 witness: the hypothesis is satisfiable at `cfA` and the theorem
applies there. -/
theorem claim_C5_witness :
    calculateXIRR mathPowInt cfA = some rA ∧
    ((rA.hasDifference = true ↔ (0.00001 : Rat) < |rA.newtonRaphson.rate - rA.brent.rate|) ∧
     rA.difference = |rA.newtonRaphson.rate - rA.brent.rate|) :=
  ⟨by with_unfolding_all rfl,
   claim_C5_disagreement mathPowInt cfA rA (by with_unfolding_all rfl)⟩

/-! ### Claim C3: degenerate-input guard -/

/-- C3: a sequence whose chronologically last flow is negative and whose net
amount sum is negative produces no result; any sequence of at least two flows
not hitting that guard produces a result whose stored MethodResults are
exactly the outputs of the two solvers on the sorted flows. -/
theorem claim_C3_guard (pw : Rat → Rat → Rat) (flows : List CashFlow) :
    ((lastD (sortFlows flows)).amount < 0 → (flows.map fun f => f.amount).sum < 0 →
      calculateXIRR pw flows = none) ∧
    (2 ≤ flows.length →
      ¬((lastD (sortFlows flows)).amount < 0 ∧ (flows.map fun f => f.amount).sum < 0) →
      ∃ r, calculateXIRR pw flows = some r ∧
        r.newtonRaphson = calculateWithNewtonRaphson pw (sortFlows flows)
          (headD (sortFlows flows)).date (0.1 : Rat) ∧
        r.brent = calculateWithBrent pw (sortFlows flows)
          (headD (sortFlows flows)).date (-0.99 : Rat) (10.0 : Rat)) := by
  have hsum : (sortFlows flows).foldl (fun s f => s + f.amount) 0 =
      (flows.map fun f => f.amount).sum := by
    rw [foldl_add_amounts, sortFlows_amount_sum, zero_add]
  constructor
  · intro h1 h2
    unfold calculateXIRR
    split_ifs with hl hg
    · rfl
    · rfl
    · exact absurd ⟨h1, by rw [hsum]; exact h2⟩ hg
  · intro hlen hng
    unfold calculateXIRR
    split_ifs with hl hg
    · exact absurd hl (by omega)
    · exact absurd ⟨hg.1, hsum ▸ hg.2⟩ hng
    · exact ⟨reconcileSorted pw (sortFlows flows), rfl, rfl, rfl⟩

/-- C3 witness: the guard fires on `cfRej` (all-negative position) and does
not fire on `cfA`, where both solver outputs are carried in the result. -/
theorem claim_C3_witness :
    calculateXIRR mathPowInt cfRej = none ∧
    ∃ r, calculateXIRR mathPowInt cfA = some r ∧
      r.newtonRaphson = calculateWithNewtonRaphson mathPowInt (sortFlows cfA)
        (headD (sortFlows cfA)).date (0.1 : Rat) ∧
      r.brent = calculateWithBrent mathPowInt (sortFlows cfA)
        (headD (sortFlows cfA)).date (-0.99 : Rat) (10.0 : Rat) :=
  ⟨(claim_C3_guard mathPowInt cfRej).1 (by with_unfolding_all decide)
      (by with_unfolding_all decide),
   (claim_C3_guard mathPowInt cfA).2 (by with_unfolding_all decide)
      (by with_unfolding_all decide)⟩

/-! ### Claim C4: annualization flag, day span, simple return -/

/-- C4: for every accepted sequence the annualized flag is set exactly when
the day span between the earliest and latest flow strictly exceeds 365; the
reported total-day count is that span (the sorted head and last are indeed the
earliest and latest dates); and the reported simple return is
`pw (1 + chosenRate) (totalDays / 365.25) - 1`. -/
theorem claim_C4_annualization (pw : Rat → Rat → Rat) (flows : List CashFlow) (r : XIRRResult)
    (h : calculateXIRR pw flows = some r) :
    (r.annualized = true ↔ 365 < r.totalDays) ∧
    r.totalDays = dateDiffInDays (headD (sortFlows flows)).date (lastD (sortFlows flows)).date ∧
    (∀ f ∈ flows,
      (headD (sortFlows flows)).date ≤ f.date ∧ f.date ≤ (lastD (sortFlows flows)).date) ∧
    r.simpleReturn = pw (1 + r.xirr) ((r.totalDays : Rat) / (365.25 : Rat)) - 1 := by
  obtain ⟨-, rfl⟩ := calculateXIRR_some_inv h
  refine ⟨?_, rfl, ?_, rfl⟩
  · have ha : (reconcileSorted pw (sortFlows flows)).annualized =
        decide (365 < (reconcileSorted pw (sortFlows flows)).totalDays) := rfl
    rw [ha, decide_eq_true_iff]
  · intro f hf
    have hmem : f ∈ sortFlows flows := (sortFlows_perm flows).mem_iff.mpr hf
    exact ⟨sorted_headD_le (sortFlows_sorted flows) f hmem,
      sorted_le_lastD (sortFlows_sorted flows) f hmem⟩

/-- The reconciled result for `fl365`, a span of exactly 365 days. -/
def r365 : XIRRResult := reconcileSorted mathPowInt (sortFlows fl365)

/-- C4 witness: the hypothesis is satisfiable at `fl365`; its span is exactly
365 days and, per the theorem, the result is not annualized (the boundary case
of the `>365` rule). -/
theorem claim_C4_witness :
    calculateXIRR mathPowInt fl365 = some r365 ∧ r365.totalDays = 365 ∧
      r365.annualized = false := by
  have h : calculateXIRR mathPowInt fl365 = some r365 := by with_unfolding_all rfl
  have hdays : r365.totalDays = 365 := by with_unfolding_all rfl
  have hiff := (claim_C4_annualization mathPowInt fl365 r365 h).1
  refine ⟨h, hdays, ?_⟩
  cases hb : r365.annualized
  · rfl
  · have h365 : (365 : Nat) < 365 := by
      have := hiff.mp hb
      omega
    exact absurd h365 (by omega)

/-! ### Claim C6: every evaluation point of the Newton loop stays above -1 -/

theorem newtonTrace_ge (pw : Rat → Rat → Rat) (l : List CashFlow) (d : Int) :
    ∀ (fuel : Nat) (rate : Rat), (-0.99 : Rat) ≤ rate →
      ∀ r ∈ newtonTrace pw l d fuel rate, (-0.99 : Rat) ≤ r := by
  intro fuel
  induction fuel with
  | zero =>
    intro rate h0 r hr
    simp only [newtonTrace, List.mem_singleton] at hr
    exact hr ▸ h0
  | succ n ih =>
    intro rate h0 r hr
    simp only [newtonTrace] at hr
    split_ifs at hr with h1 h2 h3
    · exact (List.mem_singleton.mp hr) ▸ h0
    · exact (List.mem_singleton.mp hr) ▸ h0
    · rcases List.mem_cons.mp hr with rfl | hr
      · exact h0
      · exact ih _ (le_refl _) r hr
    · rcases List.mem_cons.mp hr with rfl | hr
      · exact h0
      · exact ih _ (le_of_lt (not_le.mp h3)) r hr

theorem newtonGo_rate_mem_trace (pw : Rat → Rat → Rat) (l : List CashFlow) (d : Int) :
    ∀ (fuel : Nat) (rate : Rat) (k : Nat),
      (newtonGo pw l d fuel rate k).1 ∈ newtonTrace pw l d fuel rate := by
  intro fuel
  induction fuel with
  | zero => intro rate k; simp [newtonGo, newtonTrace]
  | succ n ih =>
    intro rate k
    simp only [newtonGo, newtonTrace]
    split_ifs with h1 h2 h3
    · simp
    · simp
    · exact List.mem_cons_of_mem _ (ih _ _)
    · exact List.mem_cons_of_mem _ (ih _ _)

/-- C6: in the Newton-Raphson solver started from the default guess 0.1,
every rate at which the NPV or derivative is evaluated (the `newtonTrace`,
whose last element is also where the final residual is computed, and which
contains the returned rate) is at least -0.99 and therefore strictly greater
than -1: a step that would go at or below -0.99 is clamped to exactly
-0.99. -/
theorem claim_C6_rate_bound (pw : Rat → Rat → Rat) (l : List CashFlow) (d : Int) :
    ((calculateWithNewtonRaphson pw l d (0.1 : Rat)).rate ∈
      newtonTrace pw l d 100 (0.1 : Rat)) ∧
    ∀ r ∈ newtonTrace pw l d 100 (0.1 : Rat), (-0.99 : Rat) ≤ r ∧ (-1 : Rat) < r := by
  constructor
  · exact newtonGo_rate_mem_trace pw l d 100 (0.1 : Rat) 0
  · intro r hr
    have h1 := newtonTrace_ge pw l d 100 (0.1 : Rat) (by norm_num) r hr
    exact ⟨h1, lt_of_lt_of_le (by norm_num) h1⟩

/-- C6 witness: at the concrete sequence `cfA` the initial guess 0.1 is in the
trace, and the theorem's bounds hold for it. -/
theorem claim_C6_witness :
    ((0.1 : Rat) ∈ newtonTrace mathPowInt cfA 0 100 (0.1 : Rat)) ∧
    ((-0.99 : Rat) ≤ (0.1 : Rat) ∧ (-1 : Rat) < (0.1 : Rat)) :=
  ⟨by with_unfolding_all decide,
   (claim_C6_rate_bound mathPowInt cfA 0).2 (0.1 : Rat) (by with_unfolding_all decide)⟩

/-! ### Claim C7: Newton iteration accounting -/

theorem newtonGo_spec (pw : Rat → Rat → Rat) (l : List CashFlow) (d : Int) :
    ∀ (fuel : Nat) (rate : Rat) (k : Nat),
      k ≤ (newtonGo pw l d fuel rate k).2.1 ∧
      (newtonGo pw l d fuel rate k).2.1 ≤ k + fuel ∧
      ((newtonGo pw l d fuel rate k).2.2 = true →
        |calculateNPV pw (newtonGo pw l d fuel rate k).1 l d| < (0.000001 : Rat) ∧
        (newtonGo pw l d fuel rate k).2.1 < k + fuel) ∧
      ((newtonGo pw l d fuel rate k).2.2 = false →
        (newtonGo pw l d fuel rate k).2.1 = k + fuel ∨
        calculateDerivativeNPV pw (newtonGo pw l d fuel rate k).1 l d = 0) := by
  intro fuel
  induction fuel with
  | zero =>
    intro rate k
    simp [newtonGo]
  | succ n ih =>
    intro rate k
    simp only [newtonGo]
    split_ifs with h1 h2 h3
    · refine ⟨le_refl _, ?_, fun _ => ⟨h1, ?_⟩, fun hf => by simp at hf⟩
      · show k ≤ k + (n + 1)
        omega
      · show k < k + (n + 1)
        omega
    · refine ⟨le_refl _, ?_, fun ht => by simp at ht, fun _ => Or.inr h2⟩
      · show k ≤ k + (n + 1)
        omega
    · obtain ⟨i1, i2, i3, i4⟩ := ih (-0.99 : Rat) (k + 1)
      refine ⟨by omega, by omega, fun ht => ⟨(i3 ht).1, ?_⟩, fun hf => ?_⟩
      · have := (i3 ht).2
        omega
      · rcases i4 hf with hcnt | hder
        · exact Or.inl (by omega)
        · exact Or.inr hder
    · obtain ⟨i1, i2, i3, i4⟩ :=
        ih (rate - calculateNPV pw rate l d / calculateDerivativeNPV pw rate l d) (k + 1)
      refine ⟨by omega, by omega, fun ht => ⟨(i3 ht).1, ?_⟩, fun hf => ?_⟩
      · have := (i3 ht).2
        omega
      · rcases i4 hf with hcnt | hder
        · exact Or.inl (by omega)
        · exact Or.inr hder

/-- One-step unfolding equation of the Newton loop. -/
theorem newtonGo_succ (pw : Rat → Rat → Rat) (l : List CashFlow) (d : Int)
    (fuel : Nat) (rate : Rat) (k : Nat) :
    newtonGo pw l d (fuel + 1) rate k =
      if |calculateNPV pw rate l d| < (0.000001 : Rat) then (rate, k, true)
      else if calculateDerivativeNPV pw rate l d = 0 then (rate, k, false)
      else newtonGo pw l d fuel
        (if rate - calculateNPV pw rate l d / calculateDerivativeNPV pw rate l d ≤ (-0.99 : Rat)
         then (-0.99 : Rat)
         else rate - calculateNPV pw rate l d / calculateDerivativeNPV pw rate l d) (k + 1) := by
  simp only [newtonGo]

/-- C7 counterexample, fixed-point step: on `fl7` the Newton iteration clamps
to -0.99 and stays there (the step from -0.99 is again below -0.99). -/
theorem fl7_step (fuel k : Nat) :
    newtonGo mathPowInt fl7 0 (fuel + 1) (-0.99 : Rat) k =
      newtonGo mathPowInt fl7 0 fuel (-0.99 : Rat) (k + 1) := by
  rw [newtonGo_succ]
  have h1 : ¬(|calculateNPV mathPowInt (-0.99 : Rat) fl7 0| < (0.000001 : Rat)) := by
    with_unfolding_all decide
  have h2 : ¬(calculateDerivativeNPV mathPowInt (-0.99 : Rat) fl7 0 = 0) := by
    with_unfolding_all decide
  have h3 : (-0.99 : Rat) -
      calculateNPV mathPowInt (-0.99 : Rat) fl7 0 /
        calculateDerivativeNPV mathPowInt (-0.99 : Rat) fl7 0 ≤ (-0.99 : Rat) := by
    with_unfolding_all decide
  rw [if_neg h1, if_neg h2, if_pos h3]

/-- C7 counterexample, first step: from the default guess 0.1 the first Newton
step on `fl7` is clamped to -0.99. -/
theorem fl7_step0 :
    newtonGo mathPowInt fl7 0 100 (0.1 : Rat) 0 =
      newtonGo mathPowInt fl7 0 99 (-0.99 : Rat) 1 := by
  have h100 : (100 : Nat) = 99 + 1 := rfl
  rw [h100, newtonGo_succ]
  have h1 : ¬(|calculateNPV mathPowInt (0.1 : Rat) fl7 0| < (0.000001 : Rat)) := by
    with_unfolding_all decide
  have h2 : ¬(calculateDerivativeNPV mathPowInt (0.1 : Rat) fl7 0 = 0) := by
    with_unfolding_all decide
  have h3 : (0.1 : Rat) -
      calculateNPV mathPowInt (0.1 : Rat) fl7 0 /
        calculateDerivativeNPV mathPowInt (0.1 : Rat) fl7 0 ≤ (-0.99 : Rat) := by
    with_unfolding_all decide
  rw [if_neg h1, if_neg h2, if_pos h3]

/-- C7 counterexample, exhaustion: once clamped at -0.99 the loop runs out its
entire budget. -/
theorem fl7_exhaust :
    ∀ (fuel k : Nat),
      newtonGo mathPowInt fl7 0 fuel (-0.99 : Rat) k = ((-0.99 : Rat), k + fuel, false) := by
  intro fuel
  induction fuel with
  | zero => intro k; simp [newtonGo]
  | succ n ih =>
    intro k
    rw [fl7_step n k, ih (k + 1)]
    have hk : k + 1 + n = k + (n + 1) := by omega
    rw [hk]

/-- C7 counterexample: on the concrete sequence `fl7` (a committed capital of
2e8 at day 0 against a single unit inflow four 365.25-day years later) the
Newton-Raphson loop exhausts its 100-iteration budget, and the returned
iteration count is 101 — outside the 1..100 range the claim asserts. -/
theorem claim_C7_counterexample :
    (calculateWithNewtonRaphson mathPowInt fl7 0 (0.1 : Rat)).iterations = 101 := by
  have e : (calculateWithNewtonRaphson mathPowInt fl7 0 (0.1 : Rat)).iterations =
      (newtonGo mathPowInt fl7 0 100 (0.1 : Rat) 0).2.1 + 1 := rfl
  rw [e, fl7_step0, fl7_exhaust 99 1]

/-- C7 amended: the Newton-Raphson solver performs at most 100 loop
iterations; its returned count is the 1-based index of the iteration in which
the loop stopped (between 1 and 100) when it stopped by convergence or a zero
derivative, and 101 when the budget was exhausted; the returned residual is
the NPV at the returned rate; on convergence that residual is below 1e-6 in
absolute value and the count is at most 100; without convergence either the
count is 101 (exhaustion) or the derivative at the returned rate is exactly
zero. -/
theorem claim_C7_amended (pw : Rat → Rat → Rat) (l : List CashFlow) (d : Int) :
    1 ≤ (calculateWithNewtonRaphson pw l d (0.1 : Rat)).iterations ∧
    (calculateWithNewtonRaphson pw l d (0.1 : Rat)).iterations ≤ 101 ∧
    (calculateWithNewtonRaphson pw l d (0.1 : Rat)).finalNPV =
      calculateNPV pw (calculateWithNewtonRaphson pw l d (0.1 : Rat)).rate l d ∧
    ((calculateWithNewtonRaphson pw l d (0.1 : Rat)).converged = true →
      |(calculateWithNewtonRaphson pw l d (0.1 : Rat)).finalNPV| < (0.000001 : Rat) ∧
      (calculateWithNewtonRaphson pw l d (0.1 : Rat)).iterations ≤ 100) ∧
    ((calculateWithNewtonRaphson pw l d (0.1 : Rat)).converged = false →
      (calculateWithNewtonRaphson pw l d (0.1 : Rat)).iterations = 101 ∨
      calculateDerivativeNPV pw (calculateWithNewtonRaphson pw l d (0.1 : Rat)).rate l d = 0) := by
  obtain ⟨i1, i2, i3, i4⟩ := newtonGo_spec pw l d 100 (0.1 : Rat) 0
  have ei : (calculateWithNewtonRaphson pw l d (0.1 : Rat)).iterations =
      (newtonGo pw l d 100 (0.1 : Rat) 0).2.1 + 1 := rfl
  have ec : (calculateWithNewtonRaphson pw l d (0.1 : Rat)).converged =
      (newtonGo pw l d 100 (0.1 : Rat) 0).2.2 := rfl
  have er : (calculateWithNewtonRaphson pw l d (0.1 : Rat)).rate =
      (newtonGo pw l d 100 (0.1 : Rat) 0).1 := rfl
  have ef : (calculateWithNewtonRaphson pw l d (0.1 : Rat)).finalNPV =
      calculateNPV pw (newtonGo pw l d 100 (0.1 : Rat) 0).1 l d := rfl
  refine ⟨by omega, by rw [ei]; omega, by rw [ef, er], ?_, ?_⟩
  · intro ht
    rw [ec] at ht
    refine ⟨by rw [ef]; exact (i3 ht).1, ?_⟩
    have := (i3 ht).2
    rw [ei]
    omega
  · intro hf
    rw [ec] at hf
    rcases i4 hf with hcnt | hder
    · exact Or.inl (by rw [ei]; omega)
    · exact Or.inr (by rw [er]; exact hder)

/-- C7 witness for the amended theorem: instantiated at the concrete sequence
`cfA` with base date 0. -/
theorem claim_C7_witness :
    1 ≤ (calculateWithNewtonRaphson mathPowInt cfA 0 (0.1 : Rat)).iterations ∧
    (calculateWithNewtonRaphson mathPowInt cfA 0 (0.1 : Rat)).iterations ≤ 101 ∧
    (calculateWithNewtonRaphson mathPowInt cfA 0 (0.1 : Rat)).finalNPV =
      calculateNPV mathPowInt (calculateWithNewtonRaphson mathPowInt cfA 0 (0.1 : Rat)).rate cfA 0 ∧
    ((calculateWithNewtonRaphson mathPowInt cfA 0 (0.1 : Rat)).converged = true →
      |(calculateWithNewtonRaphson mathPowInt cfA 0 (0.1 : Rat)).finalNPV| < (0.000001 : Rat) ∧
      (calculateWithNewtonRaphson mathPowInt cfA 0 (0.1 : Rat)).iterations ≤ 100) ∧
    ((calculateWithNewtonRaphson mathPowInt cfA 0 (0.1 : Rat)).converged = false →
      (calculateWithNewtonRaphson mathPowInt cfA 0 (0.1 : Rat)).iterations = 101 ∨
      calculateDerivativeNPV mathPowInt
        (calculateWithNewtonRaphson mathPowInt cfA 0 (0.1 : Rat)).rate cfA 0 = 0) :=
  claim_C7_amended mathPowInt cfA 0

/-! ### Claim C8: bracketing-solver rescue bracket -/

/-- C8: when the NPVs at the default bracket endpoints -0.99 and 10.0 have the
same sign, the bracketing solver is exactly the iteration loop started once
from the narrower bracket [-0.5, 5.0] with both endpoint NPVs re-evaluated
(the third point `c`, its value `fc` and the step memories `d`, `e` keep their
values from the original bracket), entered unconditionally — no further
bracketing check is made before looping. -/
theorem claim_C8_bracket_rescue (pw : Rat → Rat → Rat) (l : List CashFlow) (d : Int)
    (h : (0 < calculateNPV pw (-0.99 : Rat) l d ∧ 0 < calculateNPV pw (10.0 : Rat) l d) ∨
         (calculateNPV pw (-0.99 : Rat) l d < 0 ∧ calculateNPV pw (10.0 : Rat) l d < 0)) :
    calculateWithBrent pw l d (-0.99 : Rat) (10.0 : Rat) =
      mkBrentResult pw l d (brentLoop pw l d 100 0
        { a := (-0.5 : Rat)
          b := (5.0 : Rat)
          c := (-0.99 : Rat)
          d := (10.99 : Rat)
          e := (10.99 : Rat)
          fa := calculateNPV pw (-0.5 : Rat) l d
          fb := calculateNPV pw (5.0 : Rat) l d
          fc := calculateNPV pw (-0.99 : Rat) l d }) := by
  have hge : calculateNPV pw (-0.99 : Rat) l d * calculateNPV pw (10.0 : Rat) l d ≥ 0 := by
    rcases h with ⟨h1, h2⟩ | ⟨h1, h2⟩
    · exact le_of_lt (mul_pos h1 h2)
    · exact le_of_lt (mul_pos_of_neg_of_neg h1 h2)
  simp only [calculateWithBrent]
  rw [if_pos hge]
  have hd : (10.0 : Rat) - (-0.99 : Rat) = (10.99 : Rat) := by norm_num
  rw [hd]

/-- C8 witness: on `cfA` the NPV is the constant 2, so both default endpoints
have positive NPV and the theorem applies. -/
theorem claim_C8_witness :
    (0 < calculateNPV mathPowInt (-0.99 : Rat) cfA 0 ∧
      0 < calculateNPV mathPowInt (10.0 : Rat) cfA 0) ∧
    calculateWithBrent mathPowInt cfA 0 (-0.99 : Rat) (10.0 : Rat) =
      mkBrentResult mathPowInt cfA 0 (brentLoop mathPowInt cfA 0 100 0
        { a := (-0.5 : Rat)
          b := (5.0 : Rat)
          c := (-0.99 : Rat)
          d := (10.99 : Rat)
          e := (10.99 : Rat)
          fa := calculateNPV mathPowInt (-0.5 : Rat) cfA 0
          fb := calculateNPV mathPowInt (5.0 : Rat) cfA 0
          fc := calculateNPV mathPowInt (-0.99 : Rat) cfA 0 }) :=
  ⟨⟨by with_unfolding_all decide, by with_unfolding_all decide⟩,
   claim_C8_bracket_rescue mathPowInt cfA 0
     (Or.inl ⟨by with_unfolding_all decide, by with_unfolding_all decide⟩)⟩

/-! ### Claim C9: window builder -/

/-- C9: with both values present the synthesized window is chronologically
sorted and consists of exactly the synthetic outflow `-|startValue|` at the
start date, the supplied intermediate flows dated strictly between the
boundary dates (boundary-dated flows excluded), and the terminal flow
`endValue` (sign preserved) at the end date; with either value absent the
window is empty. -/
theorem claim_C9_window_builder (periodFlows : List CashFlow) (startDate endDate : Int)
    (startValue endValue : Option Rat) :
    ((startValue = none ∨ endValue = none) →
      buildPeriodCashFlows periodFlows startDate endDate startValue endValue = []) ∧
    (∀ sv ev, startValue = some sv → endValue = some ev →
      List.Sorted byDate (buildPeriodCashFlows periodFlows startDate endDate startValue endValue) ∧
      List.Perm (buildPeriodCashFlows periodFlows startDate endDate startValue endValue)
        (⟨startDate, -|sv|, "Period Start Value"⟩ ::
          (periodFlows.filter (fun f => decide (startDate < f.date ∧ f.date < endDate)) ++
            [⟨endDate, ev, "Period End Value"⟩]))) := by
  constructor
  · rintro (rfl | rfl)
    · rfl
    · cases startValue <;> rfl
  · rintro sv ev rfl rfl
    exact ⟨sortFlows_sorted _, sortFlows_perm _⟩

/-- Intermediate flows for the C9 witness: one strictly inside the window, one
dated exactly on the start boundary, one exactly on the end boundary. -/
def pfW : List CashFlow := [⟨5, 10, "mid"⟩, ⟨0, 7, "on start"⟩, ⟨20, 8, "on end"⟩]

/-- C9 witness: the theorem instantiated at a concrete period (dates 0 and 20,
start value 100, end value 50), in both the absent-value and the
both-values-present cases. -/
theorem claim_C9_witness :
    buildPeriodCashFlows pfW 0 20 none (some 50) = [] ∧
    (List.Sorted byDate (buildPeriodCashFlows pfW 0 20 (some 100) (some 50)) ∧
     List.Perm (buildPeriodCashFlows pfW 0 20 (some 100) (some 50))
       (⟨0, -|(100 : Rat)|, "Period Start Value"⟩ ::
         (pfW.filter (fun f => decide ((0 : Int) < f.date ∧ f.date < (20 : Int))) ++
           [⟨20, (50 : Rat), "Period End Value"⟩]))) :=
  ⟨(claim_C9_window_builder pfW 0 20 none (some 50)).1 (Or.inl rfl),
   (claim_C9_window_builder pfW 0 20 (some 100) (some 50)).2 100 50 rfl rfl⟩

/-! ### Claim C10: order independence -/

theorem sorted_lt_of_nodupDates {l : List CashFlow} (hs : List.Sorted byDate l)
    (hn : (l.map fun f => f.date).Nodup) : List.Sorted byDateLT l := by
  have hne : l.Pairwise fun a b => a.date ≠ b.date := List.pairwise_map.mp hn
  exact (hs.and hne).imp fun hab => lt_of_le_of_ne hab.1 hab.2

theorem eq_of_perm_sorted_nodupDates {l1 l2 : List CashFlow} (hp : List.Perm l1 l2)
    (hs1 : List.Sorted byDate l1) (hs2 : List.Sorted byDate l2)
    (hn : (l1.map fun f => f.date).Nodup) : l1 = l2 := by
  have hn2 : (l2.map fun f => f.date).Nodup := (hp.map _).nodup hn
  exact List.eq_of_perm_of_sorted hp
    (sorted_lt_of_nodupDates hs1 hn) (sorted_lt_of_nodupDates hs2 hn2)

/-- C10 counterexample: the claim fails when two flows share a date.  The
sequences `cfA` and `cfB` are permutations of each other (two flows on the
same day, amounts 5 and -3), both are accepted by the reconciler, yet the
results differ: the stable sort preserves the input order of the equal-date
flows, so the reported first flow amount is 5 in one order and -3 in the
other (and symmetrically for the last flow amount). -/
theorem claim_C10_counterexample :
    List.Perm cfA cfB ∧ calculateXIRR mathPowInt cfA ≠ calculateXIRR mathPowInt cfB := by
  constructor
  · with_unfolding_all decide
  · intro h
    have e1 : calculateXIRR mathPowInt cfA =
        some (reconcileSorted mathPowInt (sortFlows cfA)) := by with_unfolding_all rfl
    have e2 : calculateXIRR mathPowInt cfB =
        some (reconcileSorted mathPowInt (sortFlows cfB)) := by with_unfolding_all rfl
    have f1 : (reconcileSorted mathPowInt (sortFlows cfA)).firstCashFlow = 5 := by
      with_unfolding_all rfl
    have f2 : (reconcileSorted mathPowInt (sortFlows cfB)).firstCashFlow = -3 := by
      with_unfolding_all rfl
    rw [e1, e2] at h
    rw [Option.some.inj h, f2] at f1
    norm_num at f1

/-- C10 amended: permutation invariance holds for input sequences whose flow
dates are pairwise distinct (with a duplicated date the stable sort preserves
input order among the tied flows, so order-sensitive fields such as the first
and last flow amount can differ). -/
theorem claim_C10_amended (pw : Rat → Rat → Rat) (l1 l2 : List CashFlow)
    (hp : List.Perm l1 l2) (hn : (l1.map fun f => f.date).Nodup) :
    calculateXIRR pw l1 = calculateXIRR pw l2 := by
  have hns : ((sortFlows l1).map fun f => f.date).Nodup :=
    (((sortFlows_perm l1).map fun f => f.date).symm).nodup hn
  have hs : sortFlows l1 = sortFlows l2 :=
    eq_of_perm_sorted_nodupDates
      ((sortFlows_perm l1).trans (hp.trans (sortFlows_perm l2).symm))
      (sortFlows_sorted l1) (sortFlows_sorted l2) hns
  unfold calculateXIRR
  rw [hs, hp.length_eq]

/-- Distinct-date variants of the C10 counterexample pair. -/
def cfD1 : List CashFlow := [⟨0, 5, ""⟩, ⟨1, -3, ""⟩]

/-- The reverse permutation of `cfD1`. -/
def cfD2 : List CashFlow := [⟨1, -3, ""⟩, ⟨0, 5, ""⟩]

/-- C10 witness for the amended theorem: a two-flow sequence with distinct
dates and its reversal give identical results. -/
theorem claim_C10_witness :
    List.Perm cfD1 cfD2 ∧ (cfD1.map fun f => f.date).Nodup ∧
      calculateXIRR mathPowInt cfD1 = calculateXIRR mathPowInt cfD2 :=
  ⟨by with_unfolding_all decide, by with_unfolding_all decide,
   claim_C10_amended mathPowInt cfD1 cfD2 (by with_unfolding_all decide)
     (by with_unfolding_all decide)⟩

end BoltIRR
